import Mathlib

/-!
Verification of the per-pixel spectral classification engine of RSGISLib
(`RSGISSpectralCorrelationMapper.h`, `RSGISExeClassification.h`).

The repository excerpt contains only the class declarations; the bodies of
the per-pixel `calcImageValue` overloads, the similarity metrics and the
clustering engine live in translation units that are not part of the
excerpt.  Those components are therefore modelled from the specification
(each such definition carries a doc comment starting `Modelled from the
spec:`).  The "Not implemented" stub overloads of
`RSGISSpectralCorrelationMapperRule` and
`RSGISSpectralCorrelationMapperClassifier` are defined inline in the header
and are embedded directly from the source.
-/

namespace RSGIS

/-- Modelled from the spec: the ThresholdClassifier consumes a rule-score
vector under correlation semantics (higher is better, a score passes when
it is strictly above the threshold) and selects the best passing score,
the lowest index winning exact ties.  Returns the global index of the best
passing class together with its score, or `none` when no score passes.
The head of the list is index `0`; the recursive call scores the tail and
its indices are shifted by one.  A head that ties the best of the tail
(`b ≤ s`) wins, encoding the lowest-index tie-break. -/
def bestIdx (thr : ℚ) : List ℚ → Option (ℕ × ℚ)
  | [] => none
  | s :: rest =>
    match bestIdx thr rest with
    | none => if thr < s then some (0, s) else none
    | some (j, b) =>
      if thr < s then
        (if b ≤ s then some (0, s) else some (j + 1, b))
      else some (j + 1, b)

/-- Modelled from the spec: `RSGISSpectralCorrelationMapperClassifier`
per-pixel classification.  Given the rule-score vector and the configured
threshold it emits the class index of the best passing score (lowest index
among exact ties) or the "unclassified" sentinel, here `none`. -/
def classifyScores (scores : List ℚ) (thr : ℚ) : Option ℕ :=
  (bestIdx thr scores).map Prod.fst

/-- Modelled from the spec: dot product of two band-value vectors of the
shared length `numBands`. -/
noncomputable def dotP {n : ℕ} (x y : Fin n → ℝ) : ℝ := ∑ i, x i * y i

/-- Modelled from the spec: Euclidean magnitude of a band-value vector. -/
noncomputable def magP {n : ℕ} (x : Fin n → ℝ) : ℝ := Real.sqrt (dotP x x)

/-- Modelled from the spec: `spectralAngle(pixel, reference)` computes the
angle between the two vectors via the inverse cosine of their normalized
dot product. -/
noncomputable def spectralAngle {n : ℕ} (x y : Fin n → ℝ) : ℝ :=
  Real.arccos (dotP x y / (magP x * magP y))

/-- Modelled from the spec: mean of the band values of a vector. -/
noncomputable def meanP {n : ℕ} (x : Fin n → ℝ) : ℝ := (∑ i, x i) / n

/-- Modelled from the spec: band-value vector centred on its mean. -/
noncomputable def ctr {n : ℕ} (x : Fin n → ℝ) : Fin n → ℝ :=
  fun i => x i - meanP x

/-- Modelled from the spec: covariance numerator of the two band
sequences, the sum of products of centred values; `covP x x` is the
variance numerator of `x`. -/
noncomputable def covP {n : ℕ} (x y : Fin n → ℝ) : ℝ := dotP (ctr x) (ctr y)

/-- Modelled from the spec: Pearson correlation coefficient between the
two band sequences. -/
noncomputable def pearson {n : ℕ} (x y : Fin n → ℝ) : ℝ :=
  covP x y / (Real.sqrt (covP x x) * Real.sqrt (covP y y))

/-- Modelled from the spec: `spectralCorrelation(pixel, reference)`
computes the Pearson correlation coefficient between the two band
sequences and rescales the output to `[0,1]` via `(correlation + 1) / 2`. -/
noncomputable def spectralCorrelation {n : ℕ} (x y : Fin n → ℝ) : ℝ :=
  (pearson x y + 1) / 2

open Classical in
/-- Modelled from the spec: similarity score the caller records for the
spectral angle metric; a degenerate input (zero magnitude, where the angle
is undefined and the metric raises `NumericError`) is mapped to the
sentinel score `0` instead of propagating. -/
noncomputable def spectralAngleScore {n : ℕ} (x y : Fin n → ℝ) : ℝ :=
  if dotP x x = 0 ∨ dotP y y = 0 then 0 else spectralAngle x y

open Classical in
/-- Modelled from the spec: similarity score the caller records for the
spectral correlation metric; a degenerate input (zero variance, where the
correlation is undefined and the metric raises `NumericError`) is mapped
to the sentinel score `0` instead of propagating. -/
noncomputable def spectralCorrelationScore {n : ℕ} (x y : Fin n → ℝ) : ℝ :=
  if covP x x = 0 ∨ covP y y = 0 then 0 else spectralCorrelation x y

/-- Modelled from the spec: `RSGISSpectralCorrelationMapperRule` per-pixel
evaluation (PixelRuleEvaluator): for a pixel vector and the reference
spectra store it produces one rule score per reference spectrum, the
output band count equalling the number of reference classes. -/
noncomputable def evalRules {n : ℕ} (refs : List (Fin n → ℝ))
    (pixel : Fin n → ℝ) : List ℝ :=
  refs.map (fun r => spectralCorrelationScore pixel r)

/-- Modelled from the spec: the observable state of a
`RSGISSpectralCorrelationMapperRule` object, namely the scratch buffer
`imageSpecArray` that `calcImageValue` overwrites with the current pixel
before computing the per-class scores. -/
structure RuleEvalState (n : ℕ) where
  scratch : Fin n → ℝ

/-- Modelled from the spec: the stateful interface of the rule object;
`calcImageValue` refreshes the scratch buffer from the current pixel and
emits the rule-score vector, which depends only on the pixel and the
read-only reference spectra. -/
noncomputable def evalRulesSt {n : ℕ} (refs : List (Fin n → ℝ))
    (pixel : Fin n → ℝ) (_st : RuleEvalState n) :
    RuleEvalState n × List ℝ :=
  (⟨pixel⟩, evalRules refs pixel)

/-- Exception type thrown by the unimplemented `calcImageValue` overloads
of `RSGISSpectralCorrelationMapperRule` and
`RSGISSpectralCorrelationMapperClassifier` (header lines 54-59, 73-78). -/
inductive RSGISImageCalcException where
  | mk : String → RSGISImageCalcException
deriving DecidableEq

/-- Spatial extent argument of the extent overloads; the classifier never
reads its fields. -/
structure Envelope where
  minX : ℚ
  maxX : ℚ
  minY : ℚ
  maxY : ℚ

/-- Embedded from the source (header line 54): the no-output overload
`calcImageValue(float*, int)` of `RSGISSpectralCorrelationMapperRule`
unconditionally throws. -/
def ruleCalcImageValueNoOutput (_bandValues : List ℚ) (_numBands : ℤ) :
    Except RSGISImageCalcException Unit :=
  .error (.mk "Not implemented")

/-- Embedded from the source (header line 55): the extent overload
`calcImageValue(float*, int, Envelope)` of the rule class throws. -/
def ruleCalcImageValueExtent (_bandValues : List ℚ) (_numBands : ℤ)
    (_extent : Envelope) : Except RSGISImageCalcException Unit :=
  .error (.mk "Not implemented")

/-- Embedded from the source (header line 56): the output-with-extent
overload `calcImageValue(float*, int, float*, Envelope)` of the rule class
throws. -/
def ruleCalcImageValueOutputExtent (_bandValues : List ℚ) (_numBands : ℤ)
    (_extent : Envelope) : Except RSGISImageCalcException (List ℚ) :=
  .error (.mk "Not implemented")

/-- Embedded from the source (header line 57): the windowed-block overload
`calcImageValue(float***, int, int, float*)` of the rule class throws. -/
def ruleCalcImageValueWindow (_dataBlock : List (List (List ℚ)))
    (_numBands _winSize : ℤ) : Except RSGISImageCalcException (List ℚ) :=
  .error (.mk "Not implemented")

/-- Embedded from the source (header line 58): the windowed-block overload
with extent of the rule class throws (with the source's misspelt
message). -/
def ruleCalcImageValueWindowExtent (_dataBlock : List (List (List ℚ)))
    (_numBands _winSize : ℤ) (_extent : Envelope) :
    Except RSGISImageCalcException (List ℚ) :=
  .error (.mk "No implemented")

/-- Embedded from the source (header line 59): the condition overload
`calcImageValueCondition(float***, int, int, float*)` of the rule class
throws. -/
def ruleCalcImageValueCondition (_dataBlock : List (List (List ℚ)))
    (_numBands _winSize : ℤ) :
    Except RSGISImageCalcException (Bool × List ℚ) :=
  .error (.mk "Not implemented")

/-- Embedded from the source (header line 73): the no-output overload of
`RSGISSpectralCorrelationMapperClassifier` throws. -/
def classifierCalcImageValueNoOutput (_bandValues : List ℚ)
    (_numBands : ℤ) : Except RSGISImageCalcException Unit :=
  .error (.mk "Not implemented")

/-- Embedded from the source (header line 74): the extent overload of the
classifier class throws. -/
def classifierCalcImageValueExtent (_bandValues : List ℚ) (_numBands : ℤ)
    (_extent : Envelope) : Except RSGISImageCalcException Unit :=
  .error (.mk "Not implemented")

/-- Embedded from the source (header line 75): the output-with-extent
overload of the classifier class throws. -/
def classifierCalcImageValueOutputExtent (_bandValues : List ℚ)
    (_numBands : ℤ) (_extent : Envelope) :
    Except RSGISImageCalcException (List ℚ) :=
  .error (.mk "Not implemented")

/-- Embedded from the source (header line 76): the windowed-block overload
of the classifier class throws. -/
def classifierCalcImageValueWindow (_dataBlock : List (List (List ℚ)))
    (_numBands _winSize : ℤ) : Except RSGISImageCalcException (List ℚ) :=
  .error (.mk "Not implemented")

/-- Embedded from the source (header line 77): the windowed-block overload
with extent of the classifier class throws (with the source's misspelt
message). -/
def classifierCalcImageValueWindowExtent (_dataBlock : List (List (List ℚ)))
    (_numBands _winSize : ℤ) (_extent : Envelope) :
    Except RSGISImageCalcException (List ℚ) :=
  .error (.mk "No implemented")

/-- Embedded from the source (header line 78): the condition overload of
the classifier class throws. -/
def classifierCalcImageValueCondition (_dataBlock : List (List (List ℚ)))
    (_numBands _winSize : ℤ) :
    Except RSGISImageCalcException (Bool × List ℚ) :=
  .error (.mk "Not implemented")

/-- Modelled from the spec: the per-pixel overload
`calcImageValue(float*, int, float*)` of the rule class, the only rule
overload that performs computation; it fills the output array with the
rule-score vector and does not throw. -/
noncomputable def ruleCalcImageValue {n : ℕ} (refs : List (Fin n → ℝ))
    (bandValues : Fin n → ℝ) : Except RSGISImageCalcException (List ℝ) :=
  .ok (evalRules refs bandValues)

/-- Modelled from the spec: the per-pixel overload
`calcImageValue(float*, int, float*)` of the classifier class, the only
classifier overload that performs computation; it emits the class label
(or the unclassified sentinel) and does not throw. -/
def classifierCalcImageValue (bandValues : List ℚ) (threashold : ℚ) :
    Except RSGISImageCalcException (Option ℕ) :=
  .ok (classifyScores bandValues threashold)

/-- Modelled from the spec: squared Euclidean distance between two
band-value vectors; distance and movement comparisons are made on squared
distances, the threshold being squared accordingly. -/
def sqDist (a b : List ℚ) : ℚ :=
  ((a.zip b).map (fun p => (p.1 - p.2) ^ 2)).sum

/-- Modelled from the spec: the Assigning state of the ClusterEngine:
index of the nearest active centroid together with its squared distance;
discarded slots (`none`) are skipped and exact ties go to the lowest slot
index. -/
def nearestCentroid (pixel : List ℚ) : List (Option (List ℚ)) → Option (ℕ × ℚ)
  | [] => none
  | none :: rest => (nearestCentroid pixel rest).map (fun p => (p.1 + 1, p.2))
  | some c :: rest =>
    match nearestCentroid pixel rest with
    | none => some (0, sqDist pixel c)
    | some (j, b) =>
      if sqDist pixel c ≤ b then some (0, sqDist pixel c) else some (j + 1, b)

/-- Modelled from the spec: the pixels currently assigned to centroid slot
`j`, i.e. those whose nearest active centroid is slot `j`. -/
def assignedPixels (pixels : List (List ℚ)) (cents : List (Option (List ℚ)))
    (j : ℕ) : List (List ℚ) :=
  pixels.filter (fun p => decide ((nearestCentroid p cents).map Prod.fst = some j))

/-- Modelled from the spec: elementwise sum of two band-value vectors. -/
def addVec (a b : List ℚ) : List ℚ := (a.zip b).map (fun p => p.1 + p.2)

/-- Modelled from the spec: mean of a set of assigned pixel vectors; an
empty assignment has no mean. -/
def meanVec : List (List ℚ) → Option (List ℚ)
  | [] => none
  | p :: ps => some ((ps.foldl addVec p).map (fun v => v / (ps.length + 1)))

/-- Modelled from the spec: the Updating state of the ClusterEngine:
every active centroid is recomputed as the mean of its currently assigned
pixels; a centroid with zero assigned pixels is discarded (its slot
becomes `none`) and an already discarded slot stays discarded. -/
def kmeansStep (pixels : List (List ℚ)) (cents : List (Option (List ℚ))) :
    List (Option (List ℚ)) :=
  (List.range cents.length).map (fun j =>
    match cents.get? j with
    | some (some _) => meanVec (assignedPixels pixels cents j)
    | _ => none)

/-- Modelled from the spec: the ConvergenceCheck of the ClusterEngine:
every centroid surviving both iterations moved less than the configured
`clusterMoveThreshold` since the previous iteration. -/
def movementsBelow (old new : List (Option (List ℚ))) (thresh : ℚ) : Bool :=
  (List.range old.length).all (fun j =>
    match old.get? j, new.get? j with
    | some (some a), some (some b) => decide (sqDist a b < thresh)
    | _, _ => true)

/-- Modelled from the spec: the iteration loop of the ClusterEngine:
update the centroids, then check convergence; it stops when every
surviving centroid moved less than the threshold (convergence flag `true`)
or when the remaining iteration budget is exhausted (flag `false`).
Returns the final centroid table, the number of iterations performed and
the convergence flag. -/
def kmeansLoop (pixels : List (List ℚ)) (thresh : ℚ) :
    List (Option (List ℚ)) → ℕ → List (Option (List ℚ)) × ℕ × Bool
  | cents, 0 => (cents, 0, false)
  | cents, fuel + 1 =>
    if movementsBelow cents (kmeansStep pixels cents) thresh then
      (kmeansStep pixels cents, 1, true)
    else
      ((kmeansLoop pixels thresh (kmeansStep pixels cents) fuel).1,
       (kmeansLoop pixels thresh (kmeansStep pixels cents) fuel).2.1 + 1,
       (kmeansLoop pixels thresh (kmeansStep pixels cents) fuel).2.2)

/-- Modelled from the spec: a full ClusterEngine run: starting from the
seeded centroid table (one active slot per requested cluster, so the slot
count is the requested `numClusters`) it iterates up to
`maxNumIterations` times and emits the final centroid table, the
iteration count, the convergence flag and the full label raster assigning
each pixel to its nearest surviving centroid. -/
def kmeansRun (pixels : List (List ℚ)) (initCents : List (List ℚ))
    (thresh : ℚ) (maxNumIterations : ℕ) :
    List (Option (List ℚ)) × ℕ × Bool × List (Option ℕ) :=
  ((kmeansLoop pixels thresh (initCents.map some) maxNumIterations).1,
   (kmeansLoop pixels thresh (initCents.map some) maxNumIterations).2.1,
   (kmeansLoop pixels thresh (initCents.map some) maxNumIterations).2.2,
   pixels.map (fun p =>
     (nearestCentroid p
       (kmeansLoop pixels thresh (initCents.map some) maxNumIterations).1).map
       Prod.fst))

/-- Modelled from the spec: number of active (not discarded) slots in a
centroid table. -/
def activeCount (cents : List (Option (List ℚ))) : ℕ :=
  (cents.filter Option.isSome).length

lemma bestIdx_spec (thr : ℚ) (l : List ℚ) :
    (bestIdx thr l = none ↔ ∀ s ∈ l, s ≤ thr) ∧
    (∀ j b, bestIdx thr l = some (j, b) →
      ∃ h : j < l.length, l.get ⟨j, h⟩ = b ∧ thr < b ∧
        ∀ i (hi : i < l.length), thr < l.get ⟨i, hi⟩ →
          l.get ⟨i, hi⟩ ≤ b ∧ (l.get ⟨i, hi⟩ = b → j ≤ i)) := by
  induction l with
  | nil =>
    constructor
    · simp [bestIdx]
    · intro j b h; simp [bestIdx] at h
  | cons s rest ih =>
    obtain ⟨ihn, ihs⟩ := ih
    by_cases hs : thr < s
    · cases hrest : bestIdx thr rest with
      | none =>
        have hres : bestIdx thr (s :: rest) = some (0, s) := by
          simp [bestIdx, hrest, hs]
        have htail : ∀ x ∈ rest, x ≤ thr := ihn.mp hrest
        constructor
        · rw [hres]
          simp only [reduceCtorEq, false_iff]
          intro hall
          exact absurd (hall s (by simp)) (not_le.mpr hs)
        · intro j b h
          rw [hres] at h
          simp only [Option.some.injEq, Prod.mk.injEq] at h
          obtain ⟨rfl, rfl⟩ := h
          refine ⟨by simp, by simp, hs, ?_⟩
          intro i hi hpass
          cases i with
          | zero => exact ⟨le_of_eq (by simp), fun _ => Nat.zero_le _⟩
          | succ i0 =>
            exfalso
            have hi0 : i0 < rest.length := by simpa using hi
            have hmem : rest.get ⟨i0, hi0⟩ ∈ rest := List.get_mem rest _ _
            have hle : rest.get ⟨i0, hi0⟩ ≤ thr := htail _ hmem
            have : thr < rest.get ⟨i0, hi0⟩ := by simpa using hpass
            exact absurd this (not_lt.mpr hle)
      | some p =>
        obtain ⟨j0, b0⟩ := p
        obtain ⟨hj0, hget0, hthr0, hbest0⟩ := ihs j0 b0 hrest
        by_cases hb : b0 ≤ s
        · have hres : bestIdx thr (s :: rest) = some (0, s) := by
            simp [bestIdx, hrest, hs, hb]
          constructor
          · rw [hres]
            simp only [reduceCtorEq, false_iff]
            intro hall
            exact absurd (hall s (by simp)) (not_le.mpr hs)
          · intro j b h
            rw [hres] at h
            simp only [Option.some.injEq, Prod.mk.injEq] at h
            obtain ⟨rfl, rfl⟩ := h
            refine ⟨by simp, by simp, hs, ?_⟩
            intro i hi hpass
            cases i with
            | zero => exact ⟨le_of_eq (by simp), fun _ => Nat.zero_le _⟩
            | succ i0 =>
              have hi0 : i0 < rest.length := by simpa using hi
              have hpass0 : thr < rest.get ⟨i0, hi0⟩ := by simpa using hpass
              have hle : rest.get ⟨i0, hi0⟩ ≤ b0 := (hbest0 i0 hi0 hpass0).1
              have hgv : (s :: rest).get ⟨i0 + 1, hi⟩ = rest.get ⟨i0, hi0⟩ := by simp
              exact ⟨by rw [hgv]; exact le_trans hle hb, fun _ => Nat.zero_le _⟩
        · have hres : bestIdx thr (s :: rest) = some (j0 + 1, b0) := by
            simp [bestIdx, hrest, hs, hb]
          constructor
          · rw [hres]
            simp only [reduceCtorEq, false_iff]
            intro hall
            exact absurd (hall s (by simp)) (not_le.mpr hs)
          · intro j b h
            rw [hres] at h
            simp only [Option.some.injEq, Prod.mk.injEq] at h
            obtain ⟨rfl, rfl⟩ := h
            have hjlt : j0 + 1 < (s :: rest).length := by
              simpa using Nat.succ_lt_succ hj0
            refine ⟨hjlt, by simpa using hget0, hthr0, ?_⟩
            intro i hi hpass
            have hslt : s < b0 := not_le.mp hb
            cases i with
            | zero =>
              have hgv : (s :: rest).get ⟨0, hi⟩ = s := by simp
              constructor
              · rw [hgv]; exact le_of_lt hslt
              · intro heq; exfalso
                rw [hgv] at heq
                exact absurd heq (ne_of_lt hslt)
            | succ i0 =>
              have hi0 : i0 < rest.length := by simpa using hi
              have hpass0 : thr < rest.get ⟨i0, hi0⟩ := by simpa using hpass
              have hbest := hbest0 i0 hi0 hpass0
              have hgv : (s :: rest).get ⟨i0 + 1, hi⟩ = rest.get ⟨i0, hi0⟩ := by simp
              constructor
              · rw [hgv]; exact hbest.1
              · intro heq
                rw [hgv] at heq
                exact Nat.succ_le_succ (hbest.2 heq)
    · cases hrest : bestIdx thr rest with
      | none =>
        have hres : bestIdx thr (s :: rest) = none := by
          simp [bestIdx, hrest, hs]
        constructor
        · rw [hres]
          simp only [true_iff]
          intro x hx
          rcases List.mem_cons.mp hx with hx | hx
          · rw [hx]; exact not_lt.mp hs
          · exact ihn.mp hrest x hx
        · intro j b h
          rw [hres] at h
          exact Option.noConfusion h
      | some p =>
        obtain ⟨j0, b0⟩ := p
        obtain ⟨hj0, hget0, hthr0, hbest0⟩ := ihs j0 b0 hrest
        have hres : bestIdx thr (s :: rest) = some (j0 + 1, b0) := by
          simp [bestIdx, hrest, hs]
        constructor
        · rw [hres]
          simp only [reduceCtorEq, false_iff]
          intro hall
          have hmem : rest.get ⟨j0, hj0⟩ ∈ rest := List.get_mem rest _ _
          have : b0 ≤ thr := hget0 ▸ hall _ (List.mem_cons_of_mem s hmem)
          exact absurd hthr0 (not_lt.mpr this)
        · intro j b h
          rw [hres] at h
          simp only [Option.some.injEq, Prod.mk.injEq] at h
          obtain ⟨rfl, rfl⟩ := h
          have hjlt : j0 + 1 < (s :: rest).length := by
            simpa using Nat.succ_lt_succ hj0
          refine ⟨hjlt, by simpa using hget0, hthr0, ?_⟩
          intro i hi hpass
          cases i with
          | zero =>
            exfalso
            have : thr < s := by simpa using hpass
            exact hs this
          | succ i0 =>
            have hi0 : i0 < rest.length := by simpa using hi
            have hpass0 : thr < rest.get ⟨i0, hi0⟩ := by simpa using hpass
            have hbest := hbest0 i0 hi0 hpass0
            have hgv : (s :: rest).get ⟨i0 + 1, hi⟩ = rest.get ⟨i0, hi0⟩ := by simp
            constructor
            · rw [hgv]; exact hbest.1
            · intro heq
              rw [hgv] at heq
              exact Nat.succ_le_succ (hbest.2 heq)

end RSGIS

/-- C1: for every rule-score vector and threshold, any class index returned
by the ThresholdClassifier carries a passing score that is maximal among
the passing scores, and any exactly-tied passing class has an index no
smaller than the returned one (the lowest index among exact ties wins);
in particular, for scores `[0.8, 0.8, 0.5]` with correlation semantics and
threshold `0.6` the returned class index is `0`. -/
theorem classifier_lowest_index_tiebreak :
    (∀ (scores : List ℚ) (thr : ℚ) (k : ℕ),
      RSGIS.classifyScores scores thr = some k →
        ∃ h : k < scores.length,
          thr < scores.get ⟨k, h⟩ ∧
          ∀ i (hi : i < scores.length), thr < scores.get ⟨i, hi⟩ →
            scores.get ⟨i, hi⟩ ≤ scores.get ⟨k, h⟩ ∧
              (scores.get ⟨i, hi⟩ = scores.get ⟨k, h⟩ → k ≤ i)) ∧
    RSGIS.classifyScores [4/5, 4/5, 1/2] (3/5) = some 0 := by
  constructor
  · intro scores thr k hk
    unfold RSGIS.classifyScores at hk
    cases hbest : RSGIS.bestIdx thr scores with
    | none => rw [hbest] at hk; simp at hk
    | some p =>
      obtain ⟨j, b⟩ := p
      rw [hbest] at hk
      simp at hk
      subst hk
      obtain ⟨hlt, hget, hthr, hmax⟩ := (RSGIS.bestIdx_spec thr scores).2 j b hbest
      refine ⟨hlt, by rw [hget]; exact hthr, ?_⟩
      intro i hi hpass
      rw [hget]
      exact hmax i hi hpass
  · norm_num [RSGIS.classifyScores, RSGIS.bestIdx]

/-- Witness for C1: instantiating the tie-break theorem at the concrete
rule-score vector `[0.8, 0.8, 0.5]` with threshold `0.6` and returned class
`0` shows the returned score passes the threshold and dominates every
passing score. -/
theorem classifier_lowest_index_tiebreak_witness :
    ∃ h : 0 < ([4/5, 4/5, 1/2] : List ℚ).length,
      (3/5 : ℚ) < ([4/5, 4/5, 1/2] : List ℚ).get ⟨0, h⟩ ∧
      ∀ i (hi : i < ([4/5, 4/5, 1/2] : List ℚ).length),
        (3/5 : ℚ) < ([4/5, 4/5, 1/2] : List ℚ).get ⟨i, hi⟩ →
          ([4/5, 4/5, 1/2] : List ℚ).get ⟨i, hi⟩ ≤ ([4/5, 4/5, 1/2] : List ℚ).get ⟨0, h⟩ ∧
            (([4/5, 4/5, 1/2] : List ℚ).get ⟨i, hi⟩ = ([4/5, 4/5, 1/2] : List ℚ).get ⟨0, h⟩ → 0 ≤ i) :=
  classifier_lowest_index_tiebreak.1 [4/5, 4/5, 1/2] (3/5) 0
    (by norm_num [RSGIS.classifyScores, RSGIS.bestIdx])

/-- C5: for every rule-score vector and threshold, if no score passes the
threshold test (every score is at most the threshold, so none is above it
under correlation semantics), the ThresholdClassifier emits the
"unclassified" sentinel `none` rather than any class index. -/
theorem classifier_unclassified_sentinel (scores : List ℚ) (thr : ℚ)
    (hall : ∀ s ∈ scores, s ≤ thr) :
    RSGIS.classifyScores scores thr = none := by
  unfold RSGIS.classifyScores
  rw [(RSGIS.bestIdx_spec thr scores).1.mpr hall]
  rfl

/-- Witness for C5: with every score in `[0.4, 0.55, 0.2]` at most the
threshold `0.6`, the classifier emits the unclassified sentinel. -/
theorem classifier_unclassified_sentinel_witness :
    RSGIS.classifyScores [2/5, 11/20, 1/5] (3/5) = none :=
  classifier_unclassified_sentinel [2/5, 11/20, 1/5] (3/5)
    (by intro s hs; simp only [List.mem_cons, List.not_mem_nil, or_false] at hs
        rcases hs with rfl | rfl | rfl <;> norm_num)

namespace RSGIS

lemma dotP_self_nonneg {n : ℕ} (x : Fin n → ℝ) : 0 ≤ dotP x x :=
  Finset.sum_nonneg fun i _ => mul_self_nonneg (x i)

lemma covP_self_nonneg {n : ℕ} (x : Fin n → ℝ) : 0 ≤ covP x x := by
  unfold covP dotP
  exact Finset.sum_nonneg fun i _ => mul_self_nonneg (ctr x i)

lemma sum_sq_ctr {n : ℕ} (x : Fin n → ℝ) :
    ∑ i, ctr x i ^ 2 = covP x x := by
  unfold covP dotP
  exact Finset.sum_congr rfl fun i _ => by ring

lemma abs_covP_le {n : ℕ} (x y : Fin n → ℝ) :
    |covP x y| ≤ Real.sqrt (covP x x) * Real.sqrt (covP y y) := by
  rw [abs_le]
  constructor
  · have h := Real.sum_mul_le_sqrt_mul_sqrt Finset.univ
      (fun i => -(ctr x i)) (ctr y)
    have hsum : ∑ i, -(ctr x i) * ctr y i = -(covP x y) := by
      unfold covP dotP
      rw [← Finset.sum_neg_distrib]
      exact Finset.sum_congr rfl fun i _ => by ring
    have hsq : ∑ i, (-(ctr x i)) ^ 2 = covP x x := by
      rw [← sum_sq_ctr x]
      exact Finset.sum_congr rfl fun i _ => by ring
    rw [hsum, hsq, sum_sq_ctr y] at h
    linarith
  · have h := Real.sum_mul_le_sqrt_mul_sqrt Finset.univ (ctr x) (ctr y)
    rw [sum_sq_ctr x, sum_sq_ctr y] at h
    exact h

lemma pearson_abs_le_one {n : ℕ} (x y : Fin n → ℝ)
    (hx : covP x x ≠ 0) (hy : covP y y ≠ 0) : |pearson x y| ≤ 1 := by
  have hxpos : 0 < covP x x := lt_of_le_of_ne (covP_self_nonneg x) (Ne.symm hx)
  have hypos : 0 < covP y y := lt_of_le_of_ne (covP_self_nonneg y) (Ne.symm hy)
  have hden : 0 < Real.sqrt (covP x x) * Real.sqrt (covP y y) :=
    mul_pos (Real.sqrt_pos.mpr hxpos) (Real.sqrt_pos.mpr hypos)
  rw [pearson, abs_div, abs_of_pos hden]
  exact div_le_one_of_le₀ (abs_covP_le x y) hden.le

lemma dotP_smul_left {n : ℕ} (c : ℝ) (x y : Fin n → ℝ) :
    dotP (fun i => c * x i) y = c * dotP x y := by
  unfold dotP
  rw [Finset.mul_sum]
  exact Finset.sum_congr rfl fun i _ => by ring

lemma dotP_smul_self {n : ℕ} (c : ℝ) (x : Fin n → ℝ) :
    dotP (fun i => c * x i) (fun i => c * x i) = c ^ 2 * dotP x x := by
  unfold dotP
  rw [Finset.mul_sum]
  exact Finset.sum_congr rfl fun i _ => by ring

lemma magP_smul {n : ℕ} (c : ℝ) (hc : 0 ≤ c) (x : Fin n → ℝ) :
    magP (fun i => c * x i) = c * magP x := by
  unfold magP
  rw [dotP_smul_self, Real.sqrt_mul (sq_nonneg c), Real.sqrt_sq hc]

lemma spectralAngle_smul {n : ℕ} (c : ℝ) (hc : 0 < c) (x y : Fin n → ℝ) :
    spectralAngle (fun i => c * x i) y = spectralAngle x y := by
  unfold spectralAngle
  rw [dotP_smul_left, magP_smul c hc.le, mul_assoc,
    mul_div_mul_left _ _ (ne_of_gt hc)]

lemma meanP_smul {n : ℕ} (c : ℝ) (x : Fin n → ℝ) :
    meanP (fun i => c * x i) = c * meanP x := by
  unfold meanP
  rw [← Finset.mul_sum, mul_div_assoc]

lemma ctr_smul {n : ℕ} (c : ℝ) (x : Fin n → ℝ) :
    ctr (fun i => c * x i) = fun i => c * ctr x i := by
  funext i
  simp only [ctr, meanP_smul]
  ring

lemma covP_smul_left {n : ℕ} (c : ℝ) (x y : Fin n → ℝ) :
    covP (fun i => c * x i) y = c * covP x y := by
  unfold covP
  rw [ctr_smul, dotP_smul_left]

lemma covP_smul_self {n : ℕ} (c : ℝ) (x : Fin n → ℝ) :
    covP (fun i => c * x i) (fun i => c * x i) = c ^ 2 * covP x x := by
  unfold covP
  rw [ctr_smul, dotP_smul_self]

lemma pearson_smul {n : ℕ} (c : ℝ) (hc : 0 < c) (x y : Fin n → ℝ) :
    pearson (fun i => c * x i) y = pearson x y := by
  unfold pearson
  rw [covP_smul_left, covP_smul_self, Real.sqrt_mul (sq_nonneg c),
    Real.sqrt_sq hc.le, mul_assoc, mul_div_mul_left _ _ (ne_of_gt hc)]

lemma spectralAngle_example :
    spectralAngle ![(1 : ℝ), 2, 3] ![(2 : ℝ), 4, 6] = 0 := by
  unfold spectralAngle magP
  have h1 : dotP ![(1 : ℝ), 2, 3] ![(2 : ℝ), 4, 6] = 28 := by
    norm_num [dotP, Fin.sum_univ_three]
  have h2 : dotP ![(1 : ℝ), 2, 3] ![(1 : ℝ), 2, 3] = 14 := by
    norm_num [dotP, Fin.sum_univ_three]
  have h3 : dotP ![(2 : ℝ), 4, 6] ![(2 : ℝ), 4, 6] = 56 := by
    norm_num [dotP, Fin.sum_univ_three]
  rw [h1, h2, h3]
  have hs : Real.sqrt 14 * Real.sqrt 56 = 28 := by
    rw [← Real.sqrt_mul (by norm_num)]
    rw [show (14 * 56 : ℝ) = 28 ^ 2 by norm_num]
    exact Real.sqrt_sq (by norm_num)
  rw [hs, div_self (by norm_num), Real.arccos_one]

lemma spectralCorrelation_example :
    spectralCorrelation ![(1 : ℝ), 2, 3] ![(2 : ℝ), 4, 6] = 1 := by
  unfold spectralCorrelation pearson
  have h1 : covP ![(1 : ℝ), 2, 3] ![(2 : ℝ), 4, 6] = 4 := by
    norm_num [covP, dotP, ctr, meanP, Fin.sum_univ_three]
  have h2 : covP ![(1 : ℝ), 2, 3] ![(1 : ℝ), 2, 3] = 2 := by
    norm_num [covP, dotP, ctr, meanP, Fin.sum_univ_three]
  have h3 : covP ![(2 : ℝ), 4, 6] ![(2 : ℝ), 4, 6] = 8 := by
    norm_num [covP, dotP, ctr, meanP, Fin.sum_univ_three]
  rw [h1, h2, h3]
  have hs : Real.sqrt 2 * Real.sqrt 8 = 4 := by
    rw [← Real.sqrt_mul (by norm_num)]
    rw [show (2 * 8 : ℝ) = 4 ^ 2 by norm_num]
    exact Real.sqrt_sq (by norm_num)
  rw [hs]
  norm_num

end RSGIS

/-- C2: for every pixel vector and reference spectrum of equal length with
non-zero variance, `spectralCorrelation` is the Pearson correlation
coefficient of the two band sequences rescaled to `[0,1]` via
`(correlation + 1) / 2`, and the returned score lies in `[0,1]`. -/
theorem spectralCorrelation_pearson_range {n : ℕ} (x y : Fin n → ℝ)
    (hx : RSGIS.covP x x ≠ 0) (hy : RSGIS.covP y y ≠ 0) :
    RSGIS.spectralCorrelation x y = (RSGIS.pearson x y + 1) / 2 ∧
    0 ≤ RSGIS.spectralCorrelation x y ∧
    RSGIS.spectralCorrelation x y ≤ 1 := by
  have habs := abs_le.mp (RSGIS.pearson_abs_le_one x y hx hy)
  refine ⟨rfl, ?_, ?_⟩ <;> unfold RSGIS.spectralCorrelation
  · linarith [habs.1]
  · linarith [habs.2]

/-- Witness for C2: the pixel vector `[1,2]` and reference `[1,3]` both
have non-zero variance and their spectral correlation score lies in
`[0,1]`. -/
theorem spectralCorrelation_pearson_range_witness :
    0 ≤ RSGIS.spectralCorrelation ![(1 : ℝ), 2] ![(1 : ℝ), 3] ∧
    RSGIS.spectralCorrelation ![(1 : ℝ), 2] ![(1 : ℝ), 3] ≤ 1 :=
  (spectralCorrelation_pearson_range ![(1 : ℝ), 2] ![(1 : ℝ), 3]
    (by norm_num [RSGIS.covP, RSGIS.dotP, RSGIS.ctr, RSGIS.meanP, Fin.sum_univ_two])
    (by norm_num [RSGIS.covP, RSGIS.dotP, RSGIS.ctr, RSGIS.meanP, Fin.sum_univ_two])).2

/-- C3: for every vector of non-degenerate length compared against itself
(non-zero magnitude and non-zero variance), the spectral angle is `0` and
the rescaled spectral correlation is `1.0`: self-similarity is perfect. -/
theorem self_similarity_perfect {n : ℕ} (P : Fin n → ℝ)
    (h1 : RSGIS.dotP P P ≠ 0) (h2 : RSGIS.covP P P ≠ 0) :
    RSGIS.spectralAngle P P = 0 ∧ RSGIS.spectralCorrelation P P = 1 := by
  constructor
  · unfold RSGIS.spectralAngle RSGIS.magP
    rw [Real.mul_self_sqrt (RSGIS.dotP_self_nonneg P), div_self h1,
      Real.arccos_one]
  · unfold RSGIS.spectralCorrelation RSGIS.pearson
    rw [Real.mul_self_sqrt (RSGIS.covP_self_nonneg P), div_self h2]
    norm_num

/-- Witness for C3: the vector `[1,2]` has non-zero magnitude and
variance, and its self-similarity is perfect. -/
theorem self_similarity_perfect_witness :
    RSGIS.spectralAngle ![(1 : ℝ), 2] ![(1 : ℝ), 2] = 0 ∧
    RSGIS.spectralCorrelation ![(1 : ℝ), 2] ![(1 : ℝ), 2] = 1 :=
  self_similarity_perfect ![(1 : ℝ), 2]
    (by norm_num [RSGIS.dotP, Fin.sum_univ_two])
    (by norm_num [RSGIS.covP, RSGIS.dotP, RSGIS.ctr, RSGIS.meanP, Fin.sum_univ_two])

/-- C4: scaling a pixel vector by a positive constant leaves both
`spectralAngle` and `spectralCorrelation` unchanged (scale invariance);
in particular `P = [1,2,3]`, `S = [2,4,6]` give angle `0` and rescaled
correlation `1.0`. -/
theorem similarity_scale_invariance {n : ℕ} (P S : Fin n → ℝ) (c : ℝ)
    (hc : 0 < c) :
    RSGIS.spectralAngle (fun i => c * P i) S = RSGIS.spectralAngle P S ∧
    RSGIS.spectralCorrelation (fun i => c * P i) S
      = RSGIS.spectralCorrelation P S ∧
    RSGIS.spectralAngle ![(1 : ℝ), 2, 3] ![(2 : ℝ), 4, 6] = 0 ∧
    RSGIS.spectralCorrelation ![(1 : ℝ), 2, 3] ![(2 : ℝ), 4, 6] = 1 := by
  refine ⟨RSGIS.spectralAngle_smul c hc P S, ?_,
    RSGIS.spectralAngle_example, RSGIS.spectralCorrelation_example⟩
  unfold RSGIS.spectralCorrelation
  rw [RSGIS.pearson_smul c hc]

/-- Witness for C4: scaling the pixel vector `[1,2]` by the positive
constant `2` leaves both similarity metrics against the reference `[1,3]`
unchanged, and the concrete example holds. -/
theorem similarity_scale_invariance_witness :
    RSGIS.spectralAngle (fun i => 2 * (![(1 : ℝ), 2]) i) ![(1 : ℝ), 3]
      = RSGIS.spectralAngle ![(1 : ℝ), 2] ![(1 : ℝ), 3] ∧
    RSGIS.spectralCorrelation (fun i => 2 * (![(1 : ℝ), 2]) i) ![(1 : ℝ), 3]
      = RSGIS.spectralCorrelation ![(1 : ℝ), 2] ![(1 : ℝ), 3] ∧
    RSGIS.spectralAngle ![(1 : ℝ), 2, 3] ![(2 : ℝ), 4, 6] = 0 ∧
    RSGIS.spectralCorrelation ![(1 : ℝ), 2, 3] ![(2 : ℝ), 4, 6] = 1 :=
  similarity_scale_invariance ![(1 : ℝ), 2] ![(1 : ℝ), 3] 2 (by norm_num)

/-- C6: a degenerate input to a similarity computation yields the defined
sentinel score `0` for that pixel/class — zero magnitude of either vector
for the spectral angle, zero variance of either vector for the spectral
correlation, each metric gated only by its own degeneracy — and the
whole-raster scan continues: the rule evaluator still emits one score per
reference class for every pixel of the raster. -/
theorem degenerate_sentinel_scan_continues {n : ℕ} (x y : Fin n → ℝ)
    (refs : List (Fin n → ℝ)) (pixels : List (Fin n → ℝ))
    (pixel : Fin n → ℝ) :
    (RSGIS.dotP x x = 0 ∨ RSGIS.dotP y y = 0 →
      RSGIS.spectralAngleScore x y = 0) ∧
    (RSGIS.covP x x = 0 ∨ RSGIS.covP y y = 0 →
      RSGIS.spectralCorrelationScore x y = 0) ∧
    (RSGIS.evalRules refs pixel).length = refs.length ∧
    (pixels.map (RSGIS.evalRules refs)).length = pixels.length := by
  refine ⟨?_, ?_, ?_, ?_⟩
  · intro hdega
    unfold RSGIS.spectralAngleScore
    rw [if_pos hdega]
  · intro hdegc
    unfold RSGIS.spectralCorrelationScore
    rw [if_pos hdegc]
  · unfold RSGIS.evalRules
    rw [List.length_map]
  · rw [List.length_map]

/-- Witness for C6: the zero pixel vector `[0,0]` has zero magnitude and
receives the angle sentinel score `0` against the reference `[1,3]`; the
constant pixel vector `[1,1]` has non-zero magnitude but zero variance and
receives the correlation sentinel score `0` against the same reference;
and the scan over a one-pixel raster still emits a full score vector. -/
theorem degenerate_sentinel_scan_continues_witness :
    RSGIS.spectralAngleScore ![(0 : ℝ), 0] ![(1 : ℝ), 3] = 0 ∧
    RSGIS.spectralCorrelationScore ![(1 : ℝ), 1] ![(1 : ℝ), 3] = 0 ∧
    (RSGIS.evalRules [![(1 : ℝ), 3]] ![(1 : ℝ), 2]).length
      = [![(1 : ℝ), 3]].length ∧
    ([![(1 : ℝ), 2]].map (RSGIS.evalRules [![(1 : ℝ), 3]])).length
      = [![(1 : ℝ), 2]].length :=
  ⟨(degenerate_sentinel_scan_continues ![(0 : ℝ), 0] ![(1 : ℝ), 3]
      [![(1 : ℝ), 3]] [![(1 : ℝ), 2]] ![(1 : ℝ), 2]).1
    (Or.inl (by norm_num [RSGIS.dotP, Fin.sum_univ_two])),
   (degenerate_sentinel_scan_continues ![(1 : ℝ), 1] ![(1 : ℝ), 3]
      [![(1 : ℝ), 3]] [![(1 : ℝ), 2]] ![(1 : ℝ), 2]).2.1
    (Or.inl (by norm_num [RSGIS.covP, RSGIS.dotP, RSGIS.ctr, RSGIS.meanP,
      Fin.sum_univ_two])),
   (degenerate_sentinel_scan_continues ![(0 : ℝ), 0] ![(1 : ℝ), 3]
      [![(1 : ℝ), 3]] [![(1 : ℝ), 2]] ![(1 : ℝ), 2]).2.2.1,
   (degenerate_sentinel_scan_continues ![(0 : ℝ), 0] ![(1 : ℝ), 3]
      [![(1 : ℝ), 3]] [![(1 : ℝ), 2]] ![(1 : ℝ), 2]).2.2.2⟩

/-- C7: the PixelRuleEvaluator is deterministic and stateless: for every
pixel vector and reference spectra store, the emitted rule-score vector
does not depend on the scratch state the object is in, and re-running the
evaluator on the same pixel/reference pair (threading the updated state
through) yields an identical rule-score vector. -/
theorem ruleEvaluator_deterministic_stateless {n : ℕ}
    (refs : List (Fin n → ℝ)) (pixel : Fin n → ℝ)
    (st1 st2 : RSGIS.RuleEvalState n) :
    (RSGIS.evalRulesSt refs pixel st1).2 = (RSGIS.evalRulesSt refs pixel st2).2 ∧
    (RSGIS.evalRulesSt refs pixel (RSGIS.evalRulesSt refs pixel st1).1).2
      = (RSGIS.evalRulesSt refs pixel st1).2 :=
  ⟨rfl, rfl⟩

namespace RSGIS

lemma kmeansStep_length (pixels : List (List ℚ))
    (cents : List (Option (List ℚ))) :
    (kmeansStep pixels cents).length = cents.length := by
  simp [kmeansStep]

lemma get?_lt_of_eq_some {α : Type} (l : List α) (j : ℕ) (a : α)
    (h : l.get? j = some a) : j < l.length := by
  by_contra hge
  rw [List.get?_eq_none.mpr (le_of_not_lt hge)] at h
  exact Option.noConfusion h

lemma kmeansStep_get? (pixels : List (List ℚ))
    (cents : List (Option (List ℚ))) (j : ℕ) (hj : j < cents.length) :
    (kmeansStep pixels cents).get? j =
      some (match cents.get? j with
        | some (some _) => meanVec (assignedPixels pixels cents j)
        | _ => none) := by
  unfold kmeansStep
  rw [List.get?_map, List.get?_range hj]
  rfl

lemma kmeansStep_none (pixels : List (List ℚ))
    (cents : List (Option (List ℚ))) (j : ℕ)
    (hj : cents.get? j = some none) :
    (kmeansStep pixels cents).get? j = some none := by
  have hlt : j < cents.length := get?_lt_of_eq_some cents j none hj
  rw [kmeansStep_get? pixels cents j hlt, hj]

lemma kmeansStep_discard (pixels : List (List ℚ))
    (cents : List (Option (List ℚ))) (j : ℕ) (c : List ℚ)
    (hj : cents.get? j = some (some c))
    (hempty : assignedPixels pixels cents j = []) :
    (kmeansStep pixels cents).get? j = some none := by
  have hlt : j < cents.length := get?_lt_of_eq_some cents j (some c) hj
  rw [kmeansStep_get? pixels cents j hlt, hj, hempty]
  rfl

lemma kmeansLoop_none (pixels : List (List ℚ)) (thresh : ℚ) :
    ∀ (fuel : ℕ) (cents : List (Option (List ℚ))) (j : ℕ),
      cents.get? j = some none →
      ((kmeansLoop pixels thresh cents fuel).1).get? j = some none := by
  intro fuel
  induction fuel with
  | zero => intro cents j hj; simpa [kmeansLoop] using hj
  | succ f ih =>
    intro cents j hj
    unfold kmeansLoop
    cases hmv : movementsBelow cents (kmeansStep pixels cents) thresh
    · simp only [hmv, Bool.false_eq_true, if_false]
      exact ih (kmeansStep pixels cents) j (kmeansStep_none pixels cents j hj)
    · simp only [hmv, if_true]
      exact kmeansStep_none pixels cents j hj

lemma kmeansLoop_length (pixels : List (List ℚ)) (thresh : ℚ) :
    ∀ (fuel : ℕ) (cents : List (Option (List ℚ))),
      ((kmeansLoop pixels thresh cents fuel).1).length = cents.length := by
  intro fuel
  induction fuel with
  | zero => intro cents; simp [kmeansLoop]
  | succ f ih =>
    intro cents
    unfold kmeansLoop
    cases hmv : movementsBelow cents (kmeansStep pixels cents) thresh
    · simp only [hmv, Bool.false_eq_true, if_false]
      rw [ih (kmeansStep pixels cents), kmeansStep_length]
    · simp only [hmv, if_true]
      exact kmeansStep_length pixels cents

lemma activeCount_le_length (cents : List (Option (List ℚ))) :
    activeCount cents ≤ cents.length :=
  List.length_filter_le _ _

lemma kmeansLoop_spec (pixels : List (List ℚ)) (thresh : ℚ) :
    ∀ (fuel : ℕ) (cents : List (Option (List ℚ))),
      (kmeansLoop pixels thresh cents fuel).2.1 ≤ fuel ∧
      ((kmeansLoop pixels thresh cents fuel).2.2 = true →
        ∃ prev, (kmeansLoop pixels thresh cents fuel).1 = kmeansStep pixels prev ∧
          movementsBelow prev (kmeansLoop pixels thresh cents fuel).1 thresh = true) ∧
      ((kmeansLoop pixels thresh cents fuel).2.2 = false →
        (kmeansLoop pixels thresh cents fuel).2.1 = fuel) := by
  intro fuel
  induction fuel with
  | zero =>
    intro cents
    refine ⟨le_refl 0, ?_, fun _ => rfl⟩
    intro h
    simp [kmeansLoop] at h
  | succ f ih =>
    intro cents
    unfold kmeansLoop
    cases hmv : movementsBelow cents (kmeansStep pixels cents) thresh
    · simp only [hmv, Bool.false_eq_true, if_false]
      obtain ⟨h1, h2, h3⟩ := ih (kmeansStep pixels cents)
      refine ⟨Nat.succ_le_succ h1, h2, fun hfl => ?_⟩
      rw [h3 hfl]
    · simp only [hmv, if_true]
      exact ⟨Nat.succ_le_succ (Nat.zero_le f), fun _ => ⟨cents, rfl, hmv⟩,
        fun h => Bool.noConfusion h⟩

end RSGIS

/-- C8: in every ClusterEngine run, an active centroid that receives zero
assigned pixels in an iteration is discarded by the Updating step, a
discarded centroid slot stays discarded through every later iteration of
the loop, and the number of active centroids in the final centroid table
is at most the requested number of clusters (the seeded slot count). -/
theorem clusterEngine_discard_invariant (pixels : List (List ℚ))
    (initCents : List (List ℚ)) (thresh : ℚ) (maxNumIterations : ℕ)
    (cents : List (Option (List ℚ))) (j : ℕ) (c : List ℚ)
    (hj : cents.get? j = some (some c))
    (hempty : RSGIS.assignedPixels pixels cents j = []) :
    (RSGIS.kmeansStep pixels cents).get? j = some none ∧
    (∀ k, cents.get? k = some none →
      ((RSGIS.kmeansLoop pixels thresh cents maxNumIterations).1).get? k
        = some none) ∧
    RSGIS.activeCount (RSGIS.kmeansRun pixels initCents thresh
      maxNumIterations).1 ≤ initCents.length := by
  refine ⟨RSGIS.kmeansStep_discard pixels cents j c hj hempty,
    fun k hk => RSGIS.kmeansLoop_none pixels thresh maxNumIterations cents k hk,
    ?_⟩
  calc RSGIS.activeCount (RSGIS.kmeansRun pixels initCents thresh
        maxNumIterations).1
      ≤ (RSGIS.kmeansRun pixels initCents thresh maxNumIterations).1.length :=
        RSGIS.activeCount_le_length _
    _ = (initCents.map some).length :=
        RSGIS.kmeansLoop_length pixels thresh maxNumIterations _
    _ = initCents.length := List.length_map _ _

/-- Witness for C8: with pixels `[[0],[1]]` and active centroids
`[[5],[0]]`, centroid slot `0` receives zero pixels (both pixels are
nearer to centroid `1`) and the Updating step discards it. -/
theorem clusterEngine_discard_invariant_witness :
    (RSGIS.kmeansStep [[0], [1]] [some [5], some [0]]).get? 0 = some none ∧
    (∀ k, ([some [5], some [0]] : List (Option (List ℚ))).get? k = some none →
      ((RSGIS.kmeansLoop [[0], [1]] 1 [some [5], some [0]] 3).1).get? k
        = some none) ∧
    RSGIS.activeCount (RSGIS.kmeansRun [[0], [1]] [[5], [0]] 1 3).1
      ≤ ([[5], [0]] : List (List ℚ)).length :=
  clusterEngine_discard_invariant [[0], [1]] [[5], [0]] 1 3
    [some [5], some [0]] 0 [5] rfl
    (by norm_num [RSGIS.assignedPixels, RSGIS.nearestCentroid, RSGIS.sqDist])

/-- C9: every ClusterEngine run terminates: the iteration count never
exceeds `maxNumIterations`; when the run reports convergence the final
centroid table is the update of some previous table whose surviving
centroids all moved less than `clusterMoveThreshold`; when it does not
report convergence it performed exactly `maxNumIterations` iterations;
and it emits the full label raster assigning each pixel to its nearest
surviving centroid in the final centroid table. -/
theorem clusterEngine_termination (pixels : List (List ℚ))
    (initCents : List (List ℚ)) (thresh : ℚ) (maxNumIterations : ℕ) :
    (RSGIS.kmeansRun pixels initCents thresh maxNumIterations).2.1
      ≤ maxNumIterations ∧
    ((RSGIS.kmeansRun pixels initCents thresh maxNumIterations).2.2.1 = true →
      ∃ prev,
        (RSGIS.kmeansRun pixels initCents thresh maxNumIterations).1
          = RSGIS.kmeansStep pixels prev ∧
        RSGIS.movementsBelow prev
          (RSGIS.kmeansRun pixels initCents thresh maxNumIterations).1 thresh
          = true) ∧
    ((RSGIS.kmeansRun pixels initCents thresh maxNumIterations).2.2.1 = false →
      (RSGIS.kmeansRun pixels initCents thresh maxNumIterations).2.1
        = maxNumIterations) ∧
    (RSGIS.kmeansRun pixels initCents thresh maxNumIterations).2.2.2
      = pixels.map (fun p =>
          (RSGIS.nearestCentroid p
            (RSGIS.kmeansRun pixels initCents thresh maxNumIterations).1).map
            Prod.fst) := by
  obtain ⟨h1, h2, h3⟩ :=
    RSGIS.kmeansLoop_spec pixels thresh maxNumIterations (initCents.map some)
  exact ⟨h1, h2, h3, rfl⟩

/-- Witness for C9: a run with no pixels and one seeded centroid discards
the centroid, converges after one iteration, and the convergence case of
the theorem yields the previous table whose surviving centroids all moved
below the threshold. -/
theorem clusterEngine_termination_witness :
    ∃ prev,
      (RSGIS.kmeansRun [] [[0]] 1 1).1 = RSGIS.kmeansStep [] prev ∧
      RSGIS.movementsBelow prev (RSGIS.kmeansRun [] [[0]] 1 1).1 1 = true :=
  (clusterEngine_termination [] [[0]] 1 1).2.1 rfl

/-- C10: every `calcImageValue` overload of
`RSGISSpectralCorrelationMapperRule` and
`RSGISSpectralCorrelationMapperClassifier` other than the per-pixel
overload with an output array — the no-output, extent, windowed-block and
condition variants — unconditionally throws `RSGISImageCalcException` for
every input, while the per-pixel overload with an output array performs
the computation and never throws. -/
theorem unused_overloads_throw :
    (∀ bv nb, RSGIS.ruleCalcImageValueNoOutput bv nb
      = .error (.mk "Not implemented")) ∧
    (∀ bv nb e, RSGIS.ruleCalcImageValueExtent bv nb e
      = .error (.mk "Not implemented")) ∧
    (∀ bv nb e, RSGIS.ruleCalcImageValueOutputExtent bv nb e
      = .error (.mk "Not implemented")) ∧
    (∀ db nb w, RSGIS.ruleCalcImageValueWindow db nb w
      = .error (.mk "Not implemented")) ∧
    (∀ db nb w e, RSGIS.ruleCalcImageValueWindowExtent db nb w e
      = .error (.mk "No implemented")) ∧
    (∀ db nb w, RSGIS.ruleCalcImageValueCondition db nb w
      = .error (.mk "Not implemented")) ∧
    (∀ bv nb, RSGIS.classifierCalcImageValueNoOutput bv nb
      = .error (.mk "Not implemented")) ∧
    (∀ bv nb e, RSGIS.classifierCalcImageValueExtent bv nb e
      = .error (.mk "Not implemented")) ∧
    (∀ bv nb e, RSGIS.classifierCalcImageValueOutputExtent bv nb e
      = .error (.mk "Not implemented")) ∧
    (∀ db nb w, RSGIS.classifierCalcImageValueWindow db nb w
      = .error (.mk "Not implemented")) ∧
    (∀ db nb w e, RSGIS.classifierCalcImageValueWindowExtent db nb w e
      = .error (.mk "No implemented")) ∧
    (∀ db nb w, RSGIS.classifierCalcImageValueCondition db nb w
      = .error (.mk "Not implemented")) ∧
    (∀ (n : ℕ) (refs : List (Fin n → ℝ)) (bv : Fin n → ℝ),
      RSGIS.ruleCalcImageValue refs bv = .ok (RSGIS.evalRules refs bv)) ∧
    (∀ bv thr, RSGIS.classifierCalcImageValue bv thr
      = .ok (RSGIS.classifyScores bv thr)) :=
  ⟨fun _ _ => rfl, fun _ _ _ => rfl, fun _ _ _ => rfl, fun _ _ _ => rfl,
   fun _ _ _ _ => rfl, fun _ _ _ => rfl, fun _ _ => rfl, fun _ _ _ => rfl,
   fun _ _ _ => rfl, fun _ _ _ => rfl, fun _ _ _ _ => rfl, fun _ _ _ => rfl,
   fun _ _ _ => rfl, fun _ _ => rfl⟩
